import Mathlib

/-!
Shallow embedding of `interpretation.py` (LDA interpretation phase).

Probabilities are modelled as exact rationals (`ℚ`) standing for Python
floats; persisted topic mappings are association lists of
(string key, probability) pairs in mapping iteration order, mirroring the
`dict` produced by the inference pass (keys are stringified topic ids).
A Python exception aborting a pass is modelled as `Option.none`
(`Except`-style: the pass either returns a result or fails).
-/

namespace LDA

/-- A record of the raw `publications_raw` collection: {journal, year, title}
plus an optional token list (`tokens` may be missing when upstream
tokenization failed, modelled as `none`). -/
structure RawDoc where
  journal : String
  year : Int
  title : String
  tokens : Option (List String)
  deriving DecidableEq, Repr

/-- A record of the derived `publications` collection: {journal, year, title}
plus the persisted topic distribution `topics` — an association list from
string-typed topic ids to probabilities, in mapping iteration order.
`topics = none` models a record lacking the `topics` field (a direct
`d['topics']` access on it raises `KeyError`). -/
structure PubDoc where
  journal : String
  year : Int
  title : String
  topics : Option (List (String × ℚ))
  deriving DecidableEq, Repr

/-- Decimal value of a character list, accumulator style. -/
def parseKeyAux : List Char → Nat → Nat
  | [], acc => acc
  | c :: t, acc => parseKeyAux t (acc * 10 + (c.toNat - 48))

/-- `int(key)` applied to a stored string key, as in
`sorted(d['topics'].iteritems(), key=lambda x: int(x[0]))`.  Keys written
by the inference pass are decimal numerals, on which this agrees with
Python `int`. -/
def parseKey (s : String) : Nat :=
  parseKeyAux s.data 0

/-- Ordering of topic entries by their integer-parsed key, the sort key of
`sorted(..., key=lambda x: int(x[0]))`. -/
def keyLE (p q : String × ℚ) : Prop :=
  parseKey p.1 ≤ parseKey q.1

instance : DecidableRel keyLE :=
  fun p q => inferInstanceAs (Decidable (parseKey p.1 ≤ parseKey q.1))

instance : IsTotal (String × ℚ) keyLE :=
  ⟨fun p q => Nat.le_total (parseKey p.1) (parseKey q.1)⟩

instance : IsTrans (String × ℚ) keyLE :=
  ⟨fun _ _ _ h h' => Nat.le_trans h h'⟩

/-- `sorted(d['topics'].iteritems(), key=lambda x: int(x[0]))`: the topic
entries sorted (stably) by integer-parsed key. -/
def sortedTopics (t : List (String × ℚ)) : List (String × ℚ) :=
  List.insertionSort keyLE t

/-- `[value for key, value in sorted(d['topics'].iteritems(), key=lambda x: int(x[0]))]`:
the probability values of the present entries in ascending topic-id order.
This is the code's only densification step; note it contains no zero-fill. -/
def sortedTopicValues (t : List (String × ℚ)) : List ℚ :=
  (sortedTopics t).map Prod.snd

/-- First value bound to a given entry whose key parses to `i`
(the abstract content of the sparse mapping at id `i`). -/
def lookupParsed (t : List (String × ℚ)) (i : Nat) : Option ℚ :=
  (t.find? (fun p => parseKey p.1 == i)).map Prod.snd

/-- Run a fallible per-document step over a list of documents, stopping at
the first failure — the shape of every `for d in D:` loop whose body can
raise: the pass either produces all results in order or aborts. -/
def mapOpt {α β : Type} (f : α → Option β) : List α → Option (List β)
  | [] => some []
  | a :: t => (f a).bind (fun b => (mapOpt f t).map (fun bs => b :: bs))

/-- Association-list lookup (first binding wins), used to read the
dictionaries the aggregation passes build. -/
def lookupKey {κ β : Type} [DecidableEq κ] : List (κ × β) → κ → Option β
  | [], _ => none
  | p :: t, k => if p.1 = k then some p.2 else lookupKey t k

/-- One step of the grouping idiom
`if k not in dic: dic[k] = []` followed by `dic[k].append(v)`:
append `v` to the bucket of `k`, creating the bucket (at the end,
in first-encounter key order) when absent. -/
def updateKey {κ β : Type} [DecidableEq κ] (m : List (κ × List β)) (k : κ) (v : β) :
    List (κ × List β) :=
  if (lookupKey m k).isSome then
    m.map (fun p => if p.1 = k then (p.1, p.2 ++ [v]) else p)
  else
    m ++ [(k, [v])]

/-- Grouping a list of (key, value) pairs into buckets keyed by first
component, buckets in first-encounter key order, each bucket in input
order — the dictionary built by the repeated `updateKey` idiom. -/
def groupPairs {κ β : Type} [DecidableEq κ] (xs : List (κ × β)) : List (κ × List β) :=
  xs.foldl (fun m p => updateKey m p.1 p.2) []

/-- Column sum of a list of rows at column `j`
(absent positions contribute 0; only meaningful on rectangular input). -/
def colSum (vs : List (List ℚ)) (j : Nat) : ℚ :=
  ((vs.map (fun v => v.getD j 0)).sum)

/-- `np.mean(np.array(v), axis=0)` on a rectangular list of rows: the
vector of column means, of the common row length (`np.array` requires the
rows to have equal length to form a 2-D array; this embedding models that
rectangular case, reading the common length off the first row). -/
def npMean (vs : List (List ℚ)) : List ℚ :=
  (List.range (vs.headD []).length).map (fun j => colSum vs j / (vs.length : ℚ))

/-- Per-year grouping `get_year_to_topics`: for each document, read
`d['topics']` (a missing field raises → `none` aborts the pass), sort its
entries by integer key, and append the value list to the bucket of
`int(d['year'])`. -/
def get_year_to_topics (D : List PubDoc) : Option (List (Int × List (List ℚ))) :=
  (mapOpt (fun d => d.topics.map (fun t => (d.year, sortedTopicValues t))) D).map
    groupPairs

/-- `get_year_to_cum_topics`: per-year mean of the bucket vectors. -/
def get_year_to_cum_topics (m : List (Int × List (List ℚ))) : List (Int × List ℚ) :=
  m.map (fun kv => (kv.1, npMean kv.2))

/-- Per-journal grouping from `plot_topics_in_journals`: documents whose
`topics` field is absent are skipped (`if d.get('topics') is not None`),
the rest contribute their sorted value list to the bucket of their journal. -/
def get_journal_to_topics (D : List PubDoc) : List (String × List (List ℚ)) :=
  groupPairs (D.filterMap (fun d => d.topics.map (fun t => (d.journal, sortedTopicValues t))))

/-- `get_journal_to_cum_topics`: per-journal mean of the bucket vectors. -/
def get_journal_to_cum_topics (m : List (String × List (List ℚ))) :
    List (String × List ℚ) :=
  m.map (fun kv => (kv.1, npMean kv.2))

/-- `max(topics)` on a list of floats: `none` on the empty list
(Python raises ValueError there), otherwise the maximum value. -/
def listMax : List ℚ → Option ℚ
  | [] => none
  | x :: t => some (t.foldl max x)

/-- `topics.index(x)`: index of the first occurrence of `x`,
`none` when absent (Python raises ValueError there). -/
def firstIndexOf (x : ℚ) : List ℚ → Option Nat
  | [] => none
  | y :: t => if y = x then some 0 else (firstIndexOf x t).map (· + 1)

/-- `topics.index(max(topics))` from `plot_topic_co_occurrence`: the first
position attaining the maximum of the sorted value list (the code's
"dominant topic id" for the co-occurrence plot). -/
def idxOfMax (v : List ℚ) : Option Nat :=
  (listMax v).bind (fun m => firstIndexOf m v)

/-- Per-document step of the co-occurrence grouping: read `d['topics']`
(missing → error), sort, and pair the first max position with the sorted
value list; an empty distribution makes `max` fail. -/
def docDominantEntry (d : PubDoc) : Option (Nat × List ℚ) :=
  d.topics.bind (fun t =>
    (idxOfMax (sortedTopicValues t)).map (fun i => (i, sortedTopicValues t)))

/-- The `dominant_id_to_topics` dictionary of `plot_topic_co_occurrence`:
buckets of sorted value lists keyed by the first max position; any document
lacking `topics`, or with an empty distribution, aborts the pass. -/
def get_dominant_id_to_topics (D : List PubDoc) : Option (List (Nat × List (List ℚ))) :=
  (mapOpt docDominantEntry D).map groupPairs

/-- The `dominant_id_to_cum_topics` dictionary: per-dominant-id mean of the
bucket vectors, multiplied by `100.` as in the code. -/
def get_dominant_id_to_cum_topics (m : List (Nat × List (List ℚ))) :
    List (Nat × List ℚ) :=
  m.map (fun kv => (kv.1, (npMean kv.2).map (fun x => x * 100)))

/-- The self-suppression step of `plot_topic_co_occurrence`
(`df[index][index] = 0.0` over the rows): for each dominant-id key, the
entry of its vector at the position equal to the key is forced to 0
(out-of-range positions are untouched, there is no such cell). -/
def selfSuppress (m : List (Nat × List ℚ)) : List (Nat × List ℚ) :=
  m.map (fun kv => (kv.1, kv.2.set kv.1 0))

/-- Python `max(iterable, key=itemgetter(1))`: first entry of maximal
second component in iteration order (`max` keeps the earlier element on
ties, replacing only on strictly greater), `none` on the empty iterable
(Python raises ValueError there). -/
def maxByVal : List (String × ℚ) → Option (String × ℚ)
  | [] => none
  | x :: t => some (t.foldl (fun acc y => if acc.2 < y.2 then y else acc) x)

/-- One row of the `titles-to-topics` table:
`[d['year'], d['title'], d['journal'], dominant_topic_id, dominant_topic_percentage]`.
The dominant topic id field holds the mapping key as stored — a string. -/
structure TitleRow where
  year : Int
  title : String
  journal : String
  dominantTopicId : String
  dominantTopicProb : ℚ
  deriving DecidableEq, Repr

/-- `get_document_title_per_topic`: for each document, read `d['topics']`
(missing → error) and take `max(d['topics'].iteritems(), key=itemgetter(1))`
(empty → error); emit the table row.  Any failing document aborts the pass. -/
def get_document_title_per_topic (D : List PubDoc) : Option (List TitleRow) :=
  mapOpt (fun d => d.topics.bind (fun t =>
    (maxByVal t).map (fun p =>
      (⟨d.year, d.title, d.journal, p.1, p.2⟩ : TitleRow)))) D

/-- The document store visible to the inference pass: the raw collection
read from, and the derived `publications` collection written to. -/
structure DB where
  publications_raw : List RawDoc
  publications : List PubDoc
  deriving DecidableEq, Repr

/-- The record `infer_document_topic_distribution` inserts for a document
with tokens: `{'journal': .., 'year': .., 'title': .., 'topics': dic_topics}`
where `dic_topics = {str(t[0]): float(t[1]) for t in topics}`. -/
def mkInsertDoc (topics : List (Nat × ℚ)) (d : RawDoc) : PubDoc :=
  ⟨d.journal, d.year, d.title, some (topics.map (fun t => (toString t.1, t.2)))⟩

/-- `infer_document_topic_distribution`: loop over `publications_raw`;
documents without tokens are skipped; for the rest, build the bag of words
(`model.id2word.doc2bow`), infer the sparse distribution
(`model.get_document_topics`), stringify the keys and insert the new record
into the separate `publications` collection.  The external model is passed
in as the two collaborator functions. -/
def infer_document_topic_distribution
    (doc2bow : List String → List (Nat × Nat))
    (getDocumentTopics : List (Nat × Nat) → List (Nat × ℚ))
    (db : DB) : DB :=
  db.publications_raw.foldl
    (fun acc d =>
      match d.tokens with
      | none => acc
      | some tk =>
          { acc with
            publications :=
              acc.publications ++ [mkInsertDoc (getDocumentTopics (doc2bow tk)) d] })
    db

/-! ### Helper lemmas: fallible loops -/

theorem mapOpt_eq_none {α β : Type} (f : α → Option β) {l : List α} {a : α}
    (ha : a ∈ l) (hf : f a = none) : mapOpt f l = none := by
  induction l with
  | nil => cases ha
  | cons b t ih =>
      rcases List.mem_cons.mp ha with heq | ha
      · rw [heq] at hf
        simp [mapOpt, hf]
      · cases hb : f b with
        | none => simp [mapOpt, hb]
        | some y => simp [mapOpt, hb, ih ha]

theorem mapOpt_eq_map {α β : Type} (f : α → Option β) (g : α → β) :
    ∀ {l : List α}, (∀ a ∈ l, f a = some (g a)) → mapOpt f l = some (l.map g)
  | [], _ => rfl
  | a :: t, h => by
      have ha := h a (List.mem_cons_self a t)
      have ht := mapOpt_eq_map f g (fun x hx => h x (List.mem_cons_of_mem a hx))
      simp [mapOpt, ha, ht]

theorem mapOpt_forall₂ {α β : Type} (f : α → Option β) :
    ∀ {l : List α} {r : List β}, mapOpt f l = some r →
      List.Forall₂ (fun a b => f a = some b) l r
  | [], r, h => by
      simp only [mapOpt, Option.some.injEq] at h
      rw [← h]; exact List.Forall₂.nil
  | a :: t, r, h => by
      cases hfa : f a with
      | none => simp [mapOpt, hfa] at h
      | some b =>
          cases hm : mapOpt f t with
          | none => simp [mapOpt, hfa, hm] at h
          | some bs =>
              have h' : b :: bs = r := by simpa [mapOpt, hfa, hm] using h
              rw [← h']
              exact List.Forall₂.cons hfa (mapOpt_forall₂ f hm)

theorem mapOpt_isSome {α β : Type} (f : α → Option β) {l : List α}
    (h : ∀ a ∈ l, (f a).isSome) : (mapOpt f l).isSome := by
  induction l with
  | nil => simp [mapOpt]
  | cons a t ih =>
      cases hfa : f a with
      | none => have := h a (by simp); simp [hfa] at this
      | some b =>
          have ht := ih (fun x hx => h x (by simp [hx]))
          cases hm : mapOpt f t with
          | none => simp [hm] at ht
          | some bs => simp [mapOpt, hfa, hm]

/-! ### Helper lemmas: association lists and the grouping idiom -/

theorem lookupKey_eq_none_iff {κ β : Type} [DecidableEq κ] (m : List (κ × β)) (k : κ) :
    lookupKey m k = none ↔ k ∉ m.map Prod.fst := by
  induction m with
  | nil => simp [lookupKey]
  | cons p t ih =>
      by_cases hp : p.1 = k
      · simp [lookupKey, hp]
      · simp only [lookupKey, hp, if_false, List.map_cons, List.mem_cons]
        rw [ih]
        constructor
        · intro h hk
          rcases hk with hk | hk
          · exact hp hk.symm
          · exact h hk
        · intro h hk
          exact h (Or.inr hk)

theorem lookupKey_append_of_some {κ β : Type} [DecidableEq κ]
    {m₁ : List (κ × β)} (m₂ : List (κ × β)) {k : κ} {b : β}
    (h : lookupKey m₁ k = some b) : lookupKey (m₁ ++ m₂) k = some b := by
  induction m₁ with
  | nil => simp [lookupKey] at h
  | cons p t ih =>
      by_cases hp : p.1 = k
      · simpa [lookupKey, hp] using h
      · simp only [lookupKey, hp, if_false, List.cons_append] at h ⊢
        exact ih h

theorem lookupKey_append_of_none {κ β : Type} [DecidableEq κ]
    {m₁ : List (κ × β)} (m₂ : List (κ × β)) {k : κ}
    (h : lookupKey m₁ k = none) : lookupKey (m₁ ++ m₂) k = lookupKey m₂ k := by
  induction m₁ with
  | nil => simp
  | cons p t ih =>
      by_cases hp : p.1 = k
      · simp [lookupKey, hp] at h
      · simp only [lookupKey, hp, if_false, List.cons_append] at h ⊢
        exact ih h

theorem lookupKey_map_update {κ β : Type} [DecidableEq κ]
    (m : List (κ × List β)) (k : κ) (v : β) (k' : κ) :
    lookupKey (m.map (fun p => if p.1 = k then (p.1, p.2 ++ [v]) else p)) k' =
      if k' = k then (lookupKey m k').map (fun b => b ++ [v]) else lookupKey m k' := by
  induction m with
  | nil => by_cases h : k' = k <;> simp [lookupKey, h]
  | cons p t ih =>
      by_cases hpk : p.1 = k
      · by_cases hp' : p.1 = k'
        · have hk : k' = k := by rw [← hp', hpk]
          simp [lookupKey, hpk, hp', hk]
        · have hfst : ¬ (if p.1 = k then (p.1, p.2 ++ [v]) else p).1 = k' := by
            simp only [if_pos hpk]
            exact hp'
          have hk : ¬ k' = k := fun hh => hp' (hpk.trans hh.symm)
          have hk2 : ¬ k = k' := fun hh => hp' (hpk.trans hh)
          simp only [List.map_cons, lookupKey, hfst, if_false, hp', ih, hk, hk2]
      · by_cases hp' : p.1 = k'
        · have hk : ¬ k' = k := fun h => hpk (hp'.trans h)
          simp [lookupKey, hpk, hp', hk]
        · have hfst : ¬ (if p.1 = k then (p.1, p.2 ++ [v]) else p).1 = k' := by
            simp only [if_neg hpk]
            exact hp'
          simp only [List.map_cons, lookupKey, hfst, if_false, hp', ih]

theorem lookupKey_updateKey_self {κ β : Type} [DecidableEq κ]
    (m : List (κ × List β)) (k : κ) (v : β) :
    lookupKey (updateKey m k v) k = some ((lookupKey m k).getD [] ++ [v]) := by
  unfold updateKey
  cases h : lookupKey m k with
  | some b =>
      simp only [h, Option.isSome_some, if_true]
      rw [lookupKey_map_update]
      simp [h]
  | none =>
      simp only [h, Option.isSome_none, Bool.false_eq_true, if_false]
      rw [lookupKey_append_of_none _ h]
      simp [lookupKey]

theorem lookupKey_updateKey_ne {κ β : Type} [DecidableEq κ]
    (m : List (κ × List β)) {k k' : κ} (v : β) (h : k' ≠ k) :
    lookupKey (updateKey m k v) k' = lookupKey m k' := by
  unfold updateKey
  cases hm : lookupKey m k with
  | some b =>
      simp only [hm, Option.isSome_some, if_true]
      rw [lookupKey_map_update]
      simp [h]
  | none =>
      simp only [hm, Option.isSome_none, Bool.false_eq_true, if_false]
      cases hk' : lookupKey m k' with
      | some b => exact lookupKey_append_of_some _ hk'
      | none =>
          rw [lookupKey_append_of_none _ hk']
          have hk : ¬ k = k' := fun hh => h hh.symm
          simp [lookupKey, hk, hk']

/-- The bucket the grouping idiom accumulates for key `k`: the second
components of the pairs keyed `k`, in input order. -/
def bucketOf {κ β : Type} [DecidableEq κ] (xs : List (κ × β)) (k : κ) : List β :=
  (xs.filter (fun p => p.1 = k)).map Prod.snd

theorem bucketOf_cons_self {κ β : Type} [DecidableEq κ]
    {p : κ × β} {k : κ} (h : p.1 = k) (xs : List (κ × β)) :
    bucketOf (p :: xs) k = p.2 :: bucketOf xs k := by
  simp [bucketOf, List.filter_cons, h]

theorem bucketOf_cons_ne {κ β : Type} [DecidableEq κ]
    {p : κ × β} {k : κ} (h : ¬ p.1 = k) (xs : List (κ × β)) :
    bucketOf (p :: xs) k = bucketOf xs k := by
  simp [bucketOf, List.filter_cons, h]

theorem lookupKey_foldl_updateKey_some {κ β : Type} [DecidableEq κ] (k : κ) :
    ∀ (xs : List (κ × β)) (m : List (κ × List β)) (b : List β),
      lookupKey m k = some b →
      lookupKey (xs.foldl (fun m p => updateKey m p.1 p.2) m) k =
        some (b ++ bucketOf xs k)
  | [], m, b, h => by simpa [bucketOf] using h
  | p :: t, m, b, h => by
      by_cases hp : p.1 = k
      · have h1 : lookupKey (updateKey m p.1 p.2) k = some (b ++ [p.2]) := by
          rw [hp, lookupKey_updateKey_self, h]; rfl
        have := lookupKey_foldl_updateKey_some k t (updateKey m p.1 p.2) (b ++ [p.2]) h1
        simp only [List.foldl_cons, this, bucketOf_cons_self hp, List.append_assoc,
          List.singleton_append]
      · have h1 : lookupKey (updateKey m p.1 p.2) k = some b := by
          rw [lookupKey_updateKey_ne _ _ (fun hh => hp hh.symm)]; exact h
        have := lookupKey_foldl_updateKey_some k t (updateKey m p.1 p.2) b h1
        simp only [List.foldl_cons, this, bucketOf_cons_ne hp]

theorem lookupKey_foldl_updateKey_none {κ β : Type} [DecidableEq κ] [DecidableEq β] (k : κ) :
    ∀ (xs : List (κ × β)) (m : List (κ × List β)),
      lookupKey m k = none →
      lookupKey (xs.foldl (fun m p => updateKey m p.1 p.2) m) k =
        if bucketOf xs k = [] then none else some (bucketOf xs k)
  | [], m, h => by simpa [bucketOf] using h
  | p :: t, m, h => by
      by_cases hp : p.1 = k
      · have h1 : lookupKey (updateKey m p.1 p.2) k = some [p.2] := by
          rw [hp, lookupKey_updateKey_self, h]; rfl
        have := lookupKey_foldl_updateKey_some k t (updateKey m p.1 p.2) [p.2] h1
        simp [List.foldl_cons, this, bucketOf_cons_self hp]
      · have h1 : lookupKey (updateKey m p.1 p.2) k = none := by
          rw [lookupKey_updateKey_ne _ _ (fun hh => hp hh.symm)]; exact h
        have := lookupKey_foldl_updateKey_none k t (updateKey m p.1 p.2) h1
        simp only [List.foldl_cons, this, bucketOf_cons_ne hp]

theorem lookupKey_groupPairs {κ β : Type} [DecidableEq κ] [DecidableEq β]
    (xs : List (κ × β)) (k : κ) :
    lookupKey (groupPairs xs) k =
      if bucketOf xs k = [] then none else some (bucketOf xs k) :=
  lookupKey_foldl_updateKey_none k xs [] rfl

theorem keys_updateKey {κ β : Type} [DecidableEq κ]
    (m : List (κ × List β)) (k : κ) (v : β) :
    (updateKey m k v).map Prod.fst =
      m.map Prod.fst ++ (if (lookupKey m k).isSome then [] else [k]) := by
  unfold updateKey
  cases h : lookupKey m k with
  | some b =>
      simp only [h, Option.isSome_some, if_true, List.append_nil, List.map_map]
      refine List.map_congr_left (fun p _ => ?_)
      by_cases hp : p.1 = k <;> simp [Function.comp, hp]
  | none => simp [h]

theorem nodupKeys_foldl_updateKey {κ β : Type} [DecidableEq κ] :
    ∀ (xs : List (κ × β)) (m : List (κ × List β)),
      (m.map Prod.fst).Nodup →
      ((xs.foldl (fun m p => updateKey m p.1 p.2) m).map Prod.fst).Nodup
  | [], _, h => h
  | p :: t, m, h => by
      refine nodupKeys_foldl_updateKey t _ ?_
      rw [keys_updateKey]
      cases hm : lookupKey m p.1 with
      | some b => simpa using h
      | none =>
          have hk : p.1 ∉ m.map Prod.fst := (lookupKey_eq_none_iff m p.1).mp hm
          simp [List.nodup_append, h, hk]

theorem nodupKeys_groupPairs {κ β : Type} [DecidableEq κ] (xs : List (κ × β)) :
    ((groupPairs xs).map Prod.fst).Nodup :=
  nodupKeys_foldl_updateKey xs [] (by simp)

theorem lookupKey_of_mem_nodupKeys {κ β : Type} [DecidableEq κ] :
    ∀ {m : List (κ × β)}, (m.map Prod.fst).Nodup →
      ∀ {k : κ} {b : β}, (k, b) ∈ m → lookupKey m k = some b
  | [], _, _, _, hm => by cases hm
  | p :: t, hn, k, b, hm => by
      rcases List.mem_cons.mp hm with heq | hm
      · rw [← heq]
        simp [lookupKey]
      · by_cases hp : p.1 = k
        · exfalso
          have hk : k ∈ t.map Prod.fst := by
            have := List.mem_map_of_mem Prod.fst hm
            simpa using this
          rw [List.map_cons, List.nodup_cons] at hn
          exact hn.1 (hp ▸ hk)
        · rw [List.map_cons, List.nodup_cons] at hn
          simp only [lookupKey, hp, if_false]
          exact lookupKey_of_mem_nodupKeys hn.2 hm

theorem mem_groupPairs {κ β : Type} [DecidableEq κ] [DecidableEq β] {xs : List (κ × β)}
    {k : κ} {b : List β} (h : (k, b) ∈ groupPairs xs) :
    b = bucketOf xs k ∧ b ≠ [] := by
  have hl := lookupKey_of_mem_nodupKeys (nodupKeys_groupPairs xs) h
  rw [lookupKey_groupPairs] at hl
  by_cases he : bucketOf xs k = []
  · simp [he] at hl
  · simp only [he, if_false, Option.some.injEq] at hl
    exact ⟨hl.symm, hl ▸ he⟩

theorem lookupKey_mapVal {κ β γ : Type} [DecidableEq κ] (F : κ → β → γ)
    (m : List (κ × β)) (k : κ) :
    lookupKey (m.map (fun kv => (kv.1, F kv.1 kv.2))) k = (lookupKey m k).map (F k) := by
  induction m with
  | nil => simp [lookupKey]
  | cons p t ih =>
      by_cases hp : p.1 = k
      · simp [lookupKey, hp]
      · simp [lookupKey, hp, ih]

/-! ### Helper lemmas: column means -/

theorem list_sum_bound (l : List ℚ) (h : ∀ x ∈ l, 0 ≤ x ∧ x ≤ 1) :
    0 ≤ l.sum ∧ l.sum ≤ (l.length : ℚ) := by
  induction l with
  | nil => simp
  | cons a t ih =>
      have ha := h a (List.mem_cons_self a t)
      have ht := ih (fun x hx => h x (List.mem_cons_of_mem a hx))
      constructor
      · simpa using add_nonneg ha.1 ht.1
      · simp only [List.sum_cons, List.length_cons]
        push_cast
        linarith [ha.2, ht.2]

theorem mem_npMean {vs : List (List ℚ)} {x : ℚ} (hx : x ∈ npMean vs) :
    ∃ j, j < (vs.headD []).length ∧ x = colSum vs j / (vs.length : ℚ) := by
  simp only [npMean, List.mem_map, List.mem_range] at hx
  obtain ⟨j, hj, hx⟩ := hx
  exact ⟨j, hj, hx.symm⟩

theorem headD_mem {α : Type} {l : List α} (h : l ≠ []) (d : α) : l.headD d ∈ l := by
  cases l with
  | nil => exact absurd rfl h
  | cons a t => exact List.mem_cons_self a t

theorem npMean_bound {vs : List (List ℚ)} {m : Nat} (hne : vs ≠ [])
    (hlen : ∀ v ∈ vs, v.length = m)
    (hval : ∀ v ∈ vs, ∀ x ∈ v, 0 ≤ x ∧ x ≤ 1) :
    ∀ x ∈ npMean vs, 0 ≤ x ∧ x ≤ 1 := by
  intro x hx
  obtain ⟨j, hj, rfl⟩ := mem_npMean hx
  have hhead : (vs.headD []).length = m := hlen _ (headD_mem hne [])
  rw [hhead] at hj
  have hcol : ∀ y ∈ vs.map (fun v => v.getD j 0), 0 ≤ y ∧ y ≤ 1 := by
    intro y hy
    obtain ⟨v, hv, rfl⟩ := List.mem_map.mp hy
    have hjv : j < v.length := by rw [hlen v hv]; exact hj
    rw [List.getD_eq_getElem v 0 hjv]
    exact hval v hv _ (List.getElem_mem hjv)
  have hsum := list_sum_bound _ hcol
  have hn : 0 < (vs.length : ℚ) := by
    have : 0 < vs.length := List.length_pos.mpr hne
    exact_mod_cast this
  constructor
  · exact div_nonneg hsum.1 (le_of_lt hn)
  · rw [div_le_one hn]
    have := hsum.2
    simpa [colSum] using this

theorem npMean_perm {vs₁ vs₂ : List (List ℚ)} (h : vs₁.Perm vs₂) (m : Nat)
    (hlen : ∀ v ∈ vs₁, v.length = m) : npMean vs₁ = npMean vs₂ := by
  cases h1 : vs₁ with
  | nil =>
      have h2 : vs₂ = [] := by
        rw [h1] at h
        exact h.symm.eq_nil
      rw [h1] at h1 ⊢
      rw [h2]
  | cons a t =>
      have hne₁ : vs₁ ≠ [] := by rw [h1]; exact List.cons_ne_nil a t
      have hne₂ : vs₂ ≠ [] := by
        intro hh
        rw [hh] at h
        exact hne₁ h.eq_nil
      have hlen₂ : ∀ v ∈ vs₂, v.length = m := fun v hv => hlen v (h.mem_iff.mpr hv)
      have hh₁ : (vs₁.headD []).length = m := hlen _ (headD_mem hne₁ [])
      have hh₂ : (vs₂.headD []).length = m := hlen₂ _ (headD_mem hne₂ [])
      rw [← h1]
      unfold npMean
      rw [hh₁, hh₂, h.length_eq]
      refine List.map_congr_left (fun j _ => ?_)
      have : (vs₁.map (fun v => v.getD j 0)).sum = (vs₂.map (fun v => v.getD j 0)).sum :=
        (h.map (fun v => v.getD j 0)).sum_eq
      simp only [colSum, this]

/-! ### Helper lemmas: the sorted value list -/

theorem sortedTopics_perm (t : List (String × ℚ)) : (sortedTopics t).Perm t :=
  List.perm_insertionSort keyLE t

theorem sortedTopicValues_perm (t : List (String × ℚ)) :
    (sortedTopicValues t).Perm (t.map Prod.snd) :=
  (sortedTopics_perm t).map Prod.snd

theorem sortedTopicValues_length (t : List (String × ℚ)) :
    (sortedTopicValues t).length = t.length := by
  have := (sortedTopicValues_perm t).length_eq
  simpa using this

theorem mem_sortedTopicValues {t : List (String × ℚ)} {x : ℚ}
    (hx : x ∈ sortedTopicValues t) : ∃ p ∈ t, x = p.2 := by
  have := (sortedTopicValues_perm t).mem_iff.mp hx
  obtain ⟨p, hp, rfl⟩ := List.mem_map.mp this
  exact ⟨p, hp, rfl⟩

/-! ### Helper lemmas: dominant selection -/

theorem foldl_maxByVal_first :
    ∀ (t : List (String × ℚ)) (a : String × ℚ),
      (t.foldl (fun acc y => if acc.2 < y.2 then y else acc) a = a ∧
        ∀ y ∈ t, y.2 ≤ a.2) ∨
      (∃ pre p suf, t = pre ++ p :: suf ∧
        t.foldl (fun acc y => if acc.2 < y.2 then y else acc) a = p ∧
        a.2 < p.2 ∧ (∀ q ∈ pre, q.2 < p.2) ∧ (∀ q ∈ suf, q.2 ≤ p.2))
  | [], a => Or.inl ⟨rfl, by simp⟩
  | b :: t, a => by
      by_cases hab : a.2 < b.2
      · have hfold : (b :: t).foldl (fun acc y => if acc.2 < y.2 then y else acc) a =
            t.foldl (fun acc y => if acc.2 < y.2 then y else acc) b := by
          simp [List.foldl_cons, hab]
        rcases foldl_maxByVal_first t b with ⟨heq, hle⟩ | ⟨pre, p, suf, ht, heq, hlt, hpre, hsuf⟩
        · refine Or.inr ⟨[], b, t, by simp, ?_, hab, by simp, hle⟩
          rw [hfold, heq]
        · refine Or.inr ⟨b :: pre, p, suf, by rw [ht]; rfl, ?_, lt_trans hab hlt, ?_, hsuf⟩
          · rw [hfold, heq]
          · intro q hq
            rcases List.mem_cons.mp hq with heq' | hq
            · rw [heq']; exact hlt
            · exact hpre q hq
      · have hba : b.2 ≤ a.2 := le_of_not_lt hab
        have hfold : (b :: t).foldl (fun acc y => if acc.2 < y.2 then y else acc) a =
            t.foldl (fun acc y => if acc.2 < y.2 then y else acc) a := by
          simp [List.foldl_cons, hab]
        rcases foldl_maxByVal_first t a with ⟨heq, hle⟩ | ⟨pre, p, suf, ht, heq, hlt, hpre, hsuf⟩
        · refine Or.inl ⟨by rw [hfold, heq], ?_⟩
          intro y hy
          rcases List.mem_cons.mp hy with heq' | hy
          · rw [heq']; exact hba
          · exact hle y hy
        · refine Or.inr ⟨b :: pre, p, suf, by rw [ht]; rfl, by rw [hfold, heq], hlt, ?_, hsuf⟩
          intro q hq
          rcases List.mem_cons.mp hq with heq' | hq
          · rw [heq']; exact lt_of_le_of_lt hba hlt
          · exact hpre q hq

theorem maxByVal_first {l : List (String × ℚ)} {p : String × ℚ} (h : maxByVal l = some p) :
    ∃ pre suf, l = pre ++ p :: suf ∧ (∀ q ∈ pre, q.2 < p.2) ∧ (∀ q ∈ suf, q.2 ≤ p.2) := by
  cases l with
  | nil => simp [maxByVal] at h
  | cons x t =>
      have hp : t.foldl (fun acc y => if acc.2 < y.2 then y else acc) x = p := by
        simpa [maxByVal] using h
      rcases foldl_maxByVal_first t x with ⟨heq, hle⟩ | ⟨pre, q, suf, ht, heq, hlt, hpre, hsuf⟩
      · refine ⟨[], t, ?_, by simp, ?_⟩
        · rw [← hp, heq]
          simp
        · intro y hy
          rw [← hp, heq]
          exact hle y hy
      · have hqp : q = p := by rw [← hp, heq]
        refine ⟨x :: pre, suf, ?_, ?_, hqp ▸ hsuf⟩
        · rw [ht, hqp]; rfl
        · intro y hy
          rcases List.mem_cons.mp hy with heq' | hy
          · rw [heq', ← hqp]; exact hlt
          · rw [← hqp]; exact hpre y hy

theorem maxByVal_mem_le {l : List (String × ℚ)} {p : String × ℚ}
    (h : maxByVal l = some p) : p ∈ l ∧ ∀ q ∈ l, q.2 ≤ p.2 := by
  obtain ⟨pre, suf, rfl, hpre, hsuf⟩ := maxByVal_first h
  constructor
  · exact List.mem_append.mpr (Or.inr (List.mem_cons_self p suf))
  · intro q hq
    rcases List.mem_append.mp hq with hq | hq
    · exact le_of_lt (hpre q hq)
    · rcases List.mem_cons.mp hq with heq | hq
      · rw [heq]
      · exact hsuf q hq

theorem le_foldl_max : ∀ (t : List ℚ) (a : ℚ),
    a ≤ t.foldl max a ∧ ∀ x ∈ t, x ≤ t.foldl max a
  | [], a => ⟨le_refl a, by simp⟩
  | b :: t, a => by
      obtain ⟨h1, h2⟩ := le_foldl_max t (max a b)
      refine ⟨le_trans (le_max_left a b) h1, ?_⟩
      intro x hx
      rcases List.mem_cons.mp hx with heq | hx
      · rw [heq]
        exact le_trans (le_max_right a b) h1
      · exact h2 x hx

theorem foldl_max_mem : ∀ (t : List ℚ) (a : ℚ), t.foldl max a = a ∨ t.foldl max a ∈ t
  | [], a => Or.inl rfl
  | b :: t, a => by
      rcases foldl_max_mem t (max a b) with h | h
      · rcases max_choice a b with hm | hm
        · exact Or.inl (by rw [List.foldl_cons, h, hm])
        · refine Or.inr ?_
          rw [List.foldl_cons, h, hm]
          exact List.mem_cons_self b t
      · exact Or.inr (List.mem_cons_of_mem b (by rw [List.foldl_cons]; exact h))

theorem listMax_spec {v : List ℚ} {mx : ℚ} (h : listMax v = some mx) :
    mx ∈ v ∧ ∀ x ∈ v, x ≤ mx := by
  cases v with
  | nil => simp [listMax] at h
  | cons a t =>
      have hm : t.foldl max a = mx := by simpa [listMax] using h
      obtain ⟨h1, h2⟩ := le_foldl_max t a
      constructor
      · rcases foldl_max_mem t a with hh | hh
        · rw [← hm, hh]
          exact List.mem_cons_self a t
        · rw [← hm]
          exact List.mem_cons_of_mem a hh
      · intro x hx
        rcases List.mem_cons.mp hx with heq | hx
        · rw [heq, ← hm]; exact h1
        · rw [← hm]; exact h2 x hx

theorem firstIndexOf_spec (x : ℚ) :
    ∀ (l : List ℚ) (i : Nat), firstIndexOf x l = some i →
      i < l.length ∧ l.getD i 0 = x ∧ ∀ j < i, l.getD j 0 ≠ x
  | [], i, h => by simp [firstIndexOf] at h
  | y :: t, i, h => by
      by_cases hy : y = x
      · have : i = 0 := by simpa [firstIndexOf, hy] using h.symm
        subst this
        refine ⟨by simp, by simpa using hy, ?_⟩
        intro j hj
        omega
      · simp only [firstIndexOf, hy, if_false] at h
        cases hf : firstIndexOf x t with
        | none => rw [hf] at h; simp at h
        | some i' =>
            rw [hf] at h
            have h : i' + 1 = i := by simpa using h
            obtain ⟨h1, h2, h3⟩ := firstIndexOf_spec x t i' hf
            refine ⟨?_, ?_, ?_⟩
            · rw [← h]; simpa using h1
            · rw [← h]; simpa using h2
            · intro j hj
              rw [← h] at hj
              cases j with
              | zero => simpa using hy
              | succ j' =>
                  have : j' < i' := by omega
                  simpa using h3 j' this

theorem idxOfMax_spec {v : List ℚ} {i : Nat} (h : idxOfMax v = some i) :
    i < v.length ∧ (∀ j, j < v.length → v.getD j 0 ≤ v.getD i 0) ∧
      ∀ j < i, v.getD j 0 < v.getD i 0 := by
  unfold idxOfMax at h
  cases hm : listMax v with
  | none => rw [hm] at h; simp at h
  | some mx =>
      rw [hm] at h
      have h : firstIndexOf mx v = some i := by simpa using h
      obtain ⟨hmem, hle⟩ := listMax_spec hm
      obtain ⟨h1, h2, h3⟩ := firstIndexOf_spec mx v i h
      refine ⟨h1, ?_, ?_⟩
      · intro j hj
        rw [h2, List.getD_eq_getElem v 0 hj]
        exact hle _ (List.getElem_mem hj)
      · intro j hj
        have hjlen : j < v.length := lt_trans hj h1
        have hne := h3 j hj
        rw [h2]
        rw [List.getD_eq_getElem v 0 hjlen] at hne ⊢
        exact lt_of_le_of_ne (hle _ (List.getElem_mem hjlen)) hne

/-! ### Helper lemmas: ascending-key order and the all-ids-present case -/

theorem sortedTopics_sorted (t : List (String × ℚ)) : List.Sorted keyLE (sortedTopics t) :=
  List.sorted_insertionSort keyLE t

theorem sortedTopics_keys_sorted (t : List (String × ℚ)) :
    List.Sorted (· ≤ ·) ((sortedTopics t).map (fun p => parseKey p.1)) := by
  exact List.Pairwise.map (fun p : String × ℚ => parseKey p.1)
    (fun a b (h : keyLE a b) => h) (sortedTopics_sorted t)

theorem sortedTopics_keys_eq_range {t : List (String × ℚ)} {K : Nat}
    (h : (t.map (fun p => parseKey p.1)).Perm (List.range K)) :
    (sortedTopics t).map (fun p => parseKey p.1) = List.range K := by
  have hperm : ((sortedTopics t).map (fun p => parseKey p.1)).Perm (List.range K) :=
    ((sortedTopics_perm t).map (fun p => parseKey p.1)).trans h
  refine List.eq_of_perm_of_sorted hperm (sortedTopics_keys_sorted t) ?_
  exact List.pairwise_le_range K

theorem sortedTopicValues_allPresent {t : List (String × ℚ)} {K : Nat}
    (h : (t.map (fun p => parseKey p.1)).Perm (List.range K)) :
    (sortedTopicValues t).length = K ∧
      ∀ i v, lookupParsed t i = some v → (sortedTopicValues t).getD i 0 = v := by
  have hlenK : t.length = K := by
    have := h.length_eq
    simpa using this
  have hstlen : (sortedTopics t).length = t.length := (sortedTopics_perm t).length_eq
  have hkeys := sortedTopics_keys_eq_range h
  have hnodup : (t.map (fun p => parseKey p.1)).Nodup :=
    h.nodup_iff.mpr (List.nodup_range K)
  refine ⟨by rw [sortedTopicValues_length, hlenK], ?_⟩
  intro i v hl
  obtain ⟨q, hq⟩ : ∃ q, t.find? (fun p => parseKey p.1 == i) = some q ∧ v = q.2 := by
    unfold lookupParsed at hl
    cases hf : t.find? (fun p => parseKey p.1 == i) with
    | none => rw [hf] at hl; simp at hl
    | some q =>
        rw [hf] at hl
        exact ⟨q, rfl, by simpa using hl.symm⟩
  obtain ⟨hfind, hveq⟩ := hq
  have hqmem : q ∈ t := List.mem_of_find?_eq_some hfind
  have hqkey : parseKey q.1 = i := by
    have := List.find?_some hfind
    simpa using this
  have hiK : i < K := by
    have : i ∈ List.range K := h.mem_iff.mp (by
      rw [← hqkey]
      exact List.mem_map_of_mem (fun p => parseKey p.1) hqmem)
    simpa using this
  have hist : i < (sortedTopics t).length := by rw [hstlen, hlenK]; exact hiK
  have hentry : ((sortedTopics t).map (fun p => parseKey p.1)).getD i 0 = i := by
    rw [hkeys, List.getD_eq_getElem _ 0 (by simpa using hiK)]
    simp
  have hkey_i : parseKey ((sortedTopics t).getD i ("", 0)).1 = i := by
    rw [List.getD_eq_getElem _ _ (by simpa using hist)] at hentry
    rw [List.getElem_map] at hentry
    rw [List.getD_eq_getElem _ _ hist]
    exact hentry
  have hmem_i : (sortedTopics t).getD i ("", 0) ∈ t := by
    rw [List.getD_eq_getElem _ _ hist]
    exact (sortedTopics_perm t).mem_iff.mp (List.getElem_mem hist)
  have hinj := List.inj_on_of_nodup_map hnodup
  have heq : (sortedTopics t).getD i ("", 0) = q :=
    hinj hmem_i hqmem (by rw [hkey_i, hqkey])
  unfold sortedTopicValues
  rw [List.getD_eq_getElem _ _ (by simpa using hist), List.getElem_map]
  rw [List.getD_eq_getElem _ _ hist] at heq
  rw [heq, hveq]

/-! ### Helper lemmas: miscellaneous -/

theorem forall₂_mem_right {α β : Type} {R : α → β → Prop} :
    ∀ {l : List α} {r : List β}, List.Forall₂ R l r → ∀ b ∈ r, ∃ a ∈ l, R a b
  | _, _, List.Forall₂.nil, b, hb => by cases hb
  | _, _, List.Forall₂.cons h hs, b, hb => by
      rcases List.mem_cons.mp hb with heq | hb
      · exact ⟨_, List.mem_cons_self _ _, heq ▸ h⟩
      · obtain ⟨a, ha, hr⟩ := forall₂_mem_right hs b hb
        exact ⟨a, List.mem_cons_of_mem _ ha, hr⟩

theorem filterMap_eq_filterMap_filter {α β : Type} (p : α → Bool) (f : α → Option β)
    (h : ∀ a, p a = false → f a = none) :
    ∀ l : List α, l.filterMap f = (l.filter p).filterMap f
  | [] => rfl
  | a :: t => by
      cases hp : p a with
      | true =>
          simp only [List.filterMap_cons, List.filter_cons, hp, if_true]
          cases hfa : f a <;> simp [hfa, filterMap_eq_filterMap_filter p f h t]
      | false =>
          simp only [List.filterMap_cons, List.filter_cons, hp, h a hp]
          exact filterMap_eq_filterMap_filter p f h t

/-! ### Helper lemmas: the inference pass as one equation -/

theorem foldl_infer_eq (doc2bow : List String → List (Nat × Nat))
    (getDocumentTopics : List (Nat × Nat) → List (Nat × ℚ)) :
    ∀ (l : List RawDoc) (db : DB),
      (l.foldl
        (fun acc d =>
          match d.tokens with
          | none => acc
          | some tk =>
              { acc with
                publications :=
                  acc.publications ++ [mkInsertDoc (getDocumentTopics (doc2bow tk)) d] })
        db) =
      { db with
        publications :=
          db.publications ++
            l.filterMap (fun d =>
              d.tokens.map (fun tk => mkInsertDoc (getDocumentTopics (doc2bow tk)) d)) }
  | [], db => by simp
  | d :: t, db => by
      cases htk : d.tokens with
      | none =>
          simp only [List.foldl_cons, htk, List.filterMap_cons, Option.map_none]
          exact foldl_infer_eq doc2bow getDocumentTopics t db
      | some tk =>
          simp only [List.foldl_cons, htk, List.filterMap_cons, Option.map_some]
          rw [foldl_infer_eq doc2bow getDocumentTopics t]
          simp

/-! ### Claim C1 -/

/-- C1 counterexample: densifying the sparse distribution {1: 1.0} with
K = 2 (ids a subset of [0,2)) yields [1.0] — length 1, not K = 2, and there
is no zero filled in at index 0 — refuting length-K zero-filled
densification as claimed. -/
theorem c1_counterexample :
    sortedTopicValues [("1", (1 : ℚ))] = [1] ∧
    (sortedTopicValues [("1", (1 : ℚ))]).length ≠ 2 ∧
    sortedTopicValues [("1", (1 : ℚ))] ≠ [0, 1] :=
  ⟨by decide, by decide, by decide⟩

/-- C1 (amended): densification emits the stored probabilities in ascending
topic-id order with no zero-fill: the result's length equals the number of
ids present (not K in general); when the present ids are exactly 0..K-1,
the result has length K and its entry at index i is the probability stored
for id i. -/
theorem c1_theorem (t : List (String × ℚ)) (K : Nat)
    (h : (t.map (fun p => parseKey p.1)).Perm (List.range K)) :
    (sortedTopicValues t).length = t.length ∧
    (sortedTopicValues t).length = K ∧
    ∀ i v, lookupParsed t i = some v → (sortedTopicValues t).getD i 0 = v := by
  obtain ⟨h1, h2⟩ := sortedTopicValues_allPresent h
  exact ⟨sortedTopicValues_length t, h1, h2⟩

/-- C1 witness: the amended statement at the concrete distribution
{1: 1.0, 0: 0.0} with K = 2. -/
theorem c1_witness :
    (([("1", (1 : ℚ)), ("0", 0)].map (fun p => parseKey p.1)).Perm (List.range 2)) ∧
    ((sortedTopicValues [("1", (1 : ℚ)), ("0", 0)]).length = 2 ∧
      (sortedTopicValues [("1", (1 : ℚ)), ("0", 0)]).length = 2 ∧
      ∀ i v, lookupParsed [("1", (1 : ℚ)), ("0", 0)] i = some v →
        (sortedTopicValues [("1", (1 : ℚ)), ("0", 0)]).getD i 0 = v) :=
  ⟨by decide, c1_theorem [("1", (1 : ℚ)), ("0", 0)] 2 (by decide)⟩

/-! ### Claim C2 -/

/-- C2 counterexample: with the persisted mapping iterated as
[("2", 1), ("0", 1), ("1", 0)], titles-path dominant selection (`max` over
`iteritems` keyed by value) returns ("2", 1), not the entry with the
smallest tied id ("0", 1): ties do not go to the lowest topic id. -/
theorem c2_counterexample :
    maxByVal [("2", (1 : ℚ)), ("0", 1), ("1", 0)] = some ("2", 1) ∧
    maxByVal [("2", (1 : ℚ)), ("0", 1), ("1", 0)] ≠ some ("0", 1) :=
  ⟨by decide, by decide⟩

/-- C2 (amended): dominant selection is deterministic given the mapping's
iteration order but does not tie-break by smallest id: the titles path
returns the first entry attaining the maximal probability in iteration
order, and the co-occurrence path returns the smallest position attaining
the maximum of the id-sorted value list. -/
theorem c2_theorem (l : List (String × ℚ)) (p : String × ℚ) (v : List ℚ) (i : Nat)
    (h1 : maxByVal l = some p) (h2 : idxOfMax v = some i) :
    (∃ pre suf, l = pre ++ p :: suf ∧ (∀ q ∈ pre, q.2 < p.2) ∧ ∀ q ∈ suf, q.2 ≤ p.2) ∧
    (i < v.length ∧ (∀ j, j < v.length → v.getD j 0 ≤ v.getD i 0) ∧
      ∀ j < i, v.getD j 0 < v.getD i 0) :=
  ⟨maxByVal_first h1, idxOfMax_spec h2⟩

/-- C2 witness: the amended statement at the concrete tied inputs
[("2", 1), ("0", 1)] (titles path) and [1, 1] (co-occurrence path). -/
theorem c2_witness :
    maxByVal [("2", (1 : ℚ)), ("0", 1)] = some ("2", 1) ∧
    idxOfMax [(1 : ℚ), 1] = some 0 ∧
    ((∃ pre suf, [("2", (1 : ℚ)), ("0", 1)] = pre ++ ("2", (1 : ℚ)) :: suf ∧
        (∀ q ∈ pre, q.2 < 1) ∧ ∀ q ∈ suf, q.2 ≤ 1) ∧
      (0 < [(1 : ℚ), 1].length ∧
        (∀ j, j < [(1 : ℚ), 1].length →
          [(1 : ℚ), 1].getD j 0 ≤ [(1 : ℚ), 1].getD 0 0) ∧
        ∀ j < 0, [(1 : ℚ), 1].getD j 0 < [(1 : ℚ), 1].getD 0 0)) :=
  ⟨by decide, by decide,
    c2_theorem [("2", (1 : ℚ)), ("0", 1)] ("2", 1) [(1 : ℚ), 1] 0 (by decide) (by decide)⟩

/-! ### Claim C3 -/

/-- C3 counterexample: a document lacking a persisted distribution is
excluded without error only by the per-journal path; the per-year and
per-dominant-topic groupings abort with an error (`d['topics']` raises,
modelled as `none`) instead of skipping it, refuting the claim that every
grouping path excludes such documents without raising. -/
theorem c3_counterexample :
    get_year_to_topics [⟨"J", 2000, "T", none⟩] = none ∧
    get_dominant_id_to_topics [⟨"J", 2000, "T", none⟩] = none ∧
    get_journal_to_topics [⟨"J", 2000, "T", none⟩] = [] :=
  ⟨by decide, by decide, by decide⟩

/-- C3 (amended): only the per-journal grouping skips documents lacking a
persisted distribution (its result equals the result on the documents that
have one, and it never fails); the per-year and per-dominant-topic passes
abort with an error whenever any document lacks `topics`. -/
theorem c3_theorem (D : List PubDoc) (d : PubDoc) (hd : d ∈ D)
    (ht : d.topics = none) :
    get_year_to_topics D = none ∧
    get_dominant_id_to_topics D = none ∧
    get_journal_to_topics D =
      get_journal_to_topics (D.filter (fun d => d.topics.isSome)) := by
  refine ⟨?_, ?_, ?_⟩
  · unfold get_year_to_topics
    rw [mapOpt_eq_none _ hd (by simp [ht])]
    rfl
  · unfold get_dominant_id_to_topics
    rw [mapOpt_eq_none _ hd (by simp [docDominantEntry, ht])]
    rfl
  · unfold get_journal_to_topics
    rw [← filterMap_eq_filterMap_filter (fun d => d.topics.isSome) _ ?_ D]
    intro a ha
    have ha' : a.topics.isSome = false := ha
    cases hta : a.topics with
    | none => simp
    | some t =>
        rw [hta] at ha'
        simp at ha'

/-- C3 witness: the amended statement at a one-document list whose single
document lacks `topics`. -/
theorem c3_witness :
    (⟨"J", 2000, "T", none⟩ : PubDoc) ∈ [(⟨"J", 2000, "T", none⟩ : PubDoc)] ∧
    (⟨"J", 2000, "T", none⟩ : PubDoc).topics = none ∧
    (get_year_to_topics [⟨"J", 2000, "T", none⟩] = none ∧
      get_dominant_id_to_topics [⟨"J", 2000, "T", none⟩] = none ∧
      get_journal_to_topics [⟨"J", 2000, "T", none⟩] =
        get_journal_to_topics
          ([(⟨"J", 2000, "T", none⟩ : PubDoc)].filter (fun d => d.topics.isSome))) :=
  ⟨by decide, by decide,
    c3_theorem [⟨"J", 2000, "T", none⟩] ⟨"J", 2000, "T", none⟩ (by decide) (by decide)⟩

/-! ### Claim C4 -/

/-- C4 counterexample: a sparse distribution holding id 5 with K = 3 is
processed without any failure: the per-year aggregation returns a normal
result, the out-of-range entry's value included in the bucket — refuting
the claim that an out-of-range id signals a hard failure. -/
theorem c4_counterexample :
    get_year_to_topics [⟨"J", 2000, "T", some [("5", 1)]⟩] =
      some [((2000 : Int), [[(1 : ℚ)]])] := by decide

/-- C4 (amended): the aggregation performs no topic-id validation:
whenever every document carries a persisted distribution, the per-year
pass succeeds regardless of what ids the distributions mention, and every
bucket member is exactly some document's sorted value list, carried over
unchanged (out-of-range entries included, neither clamped nor dropped). -/
theorem c4_theorem (D : List PubDoc) (hs : ∀ d ∈ D, d.topics.isSome) :
    ∃ g, get_year_to_topics D = some g ∧
      ∀ kb ∈ g, kb.2 ≠ [] ∧
        ∀ v ∈ kb.2, ∃ d ∈ D, ∃ t, d.topics = some t ∧ v = sortedTopicValues t := by
  unfold get_year_to_topics
  have hxs := mapOpt_isSome
    (fun d => d.topics.map (fun t => ((d.year : Int), sortedTopicValues t)))
    (l := D)
    (fun d hd => by
      have hsd := hs d hd
      cases ht : d.topics with
      | none => rw [ht] at hsd; simp at hsd
      | some t =>
          have hgoal :
              (d.topics.map (fun t => ((d.year : Int), sortedTopicValues t))).isSome =
                true := by
            rw [ht]; rfl
          exact hgoal)
  obtain ⟨xs, hxs⟩ := Option.isSome_iff_exists.mp hxs
  refine ⟨groupPairs xs, by rw [hxs]; rfl, ?_⟩
  intro kb hkb
  obtain ⟨hb, hbne⟩ := mem_groupPairs (by
    have : kb = (kb.1, kb.2) := rfl
    rw [this] at hkb
    exact hkb)
  refine ⟨hbne, ?_⟩
  intro v hv
  rw [hb] at hv
  obtain ⟨pair, hpair, hpv⟩ := List.mem_map.mp hv
  have hpx : pair ∈ xs := List.mem_of_mem_filter hpair
  have hfa := forall₂_mem_right (mapOpt_forall₂ _ hxs) pair hpx
  obtain ⟨d, hd, hfd⟩ := hfa
  have hfd' : d.topics.map (fun t => ((d.year : Int), sortedTopicValues t)) = some pair :=
    hfd
  cases ht : d.topics with
  | none => rw [ht] at hfd'; simp at hfd'
  | some t =>
      rw [ht] at hfd'
      refine ⟨d, hd, t, ht, ?_⟩
      have hpt : pair = ((d.year : Int), sortedTopicValues t) := by simpa using hfd'.symm
      rw [← hpv, hpt]

/-- C4 witness: the amended statement at a one-document list whose
distribution mentions id 5 (out of range for K = 3). -/
theorem c4_witness :
    (∀ d ∈ [(⟨"J", 2000, "T", some [("5", (1 : ℚ))]⟩ : PubDoc)], d.topics.isSome) ∧
    (∃ g, get_year_to_topics [⟨"J", 2000, "T", some [("5", (1 : ℚ))]⟩] = some g ∧
      ∀ kb ∈ g, kb.2 ≠ [] ∧
        ∀ v ∈ kb.2, ∃ d ∈ [(⟨"J", 2000, "T", some [("5", (1 : ℚ))]⟩ : PubDoc)],
          ∃ t, d.topics = some t ∧ v = sortedTopicValues t) :=
  ⟨by decide, c4_theorem [⟨"J", 2000, "T", some [("5", (1 : ℚ))]⟩] (by decide)⟩

/-! ### Claim C5 -/

/-- C5: dominant-topic selection on an empty persisted distribution is a
hard failure: in `get_document_title_per_topic`, any document whose
`topics` mapping has no entries makes `max` raise, aborting the whole
pass (modelled as the pass returning `none`). -/
theorem c5_theorem (D : List PubDoc) (d : PubDoc) (hd : d ∈ D)
    (ht : d.topics = some []) : get_document_title_per_topic D = none := by
  unfold get_document_title_per_topic
  exact mapOpt_eq_none _ hd (by simp [ht, maxByVal])

/-- C5 witness: the statement at a one-document list whose single document
persists an empty distribution. -/
theorem c5_witness :
    (⟨"J", 2000, "T", some []⟩ : PubDoc) ∈ [(⟨"J", 2000, "T", some []⟩ : PubDoc)] ∧
    (⟨"J", 2000, "T", some []⟩ : PubDoc).topics = some [] ∧
    get_document_title_per_topic [⟨"J", 2000, "T", some []⟩] = none :=
  ⟨by decide, by decide,
    c5_theorem [⟨"J", 2000, "T", some []⟩] ⟨"J", 2000, "T", some []⟩ (by decide) (by decide)⟩

/-! ### Claim C7 -/

/-- C7: the inference pass skips token-less documents and, for each
document with tokens, persists into the separate `publications` collection
a record holding exactly {journal, year, title, topics}, where topics is
the inferred sparse distribution re-keyed to stringified topic ids; the
`publications_raw` collection is left unchanged. -/
theorem c7_theorem (doc2bow : List String → List (Nat × Nat))
    (getDocumentTopics : List (Nat × Nat) → List (Nat × ℚ)) (db : DB) :
    (infer_document_topic_distribution doc2bow getDocumentTopics db).publications_raw =
        db.publications_raw ∧
    (infer_document_topic_distribution doc2bow getDocumentTopics db).publications =
        db.publications ++
          db.publications_raw.filterMap (fun d =>
            d.tokens.map (fun tk =>
              (⟨d.journal, d.year, d.title,
                some ((getDocumentTopics (doc2bow tk)).map
                  (fun t => (toString t.1, t.2)))⟩ : PubDoc))) := by
  unfold infer_document_topic_distribution
  rw [foldl_infer_eq]
  exact ⟨rfl, rfl⟩

/-! ### Claim C10 -/

/-- C10: each exported titles-to-topics row has the shape
[year, title, journal, dominant_topic_id, dominant_topic_probability], and
the dominant_topic_id field carries the string-typed storage key of the
persisted mapping (one of the stored string keys, not an integer id). -/
theorem c10_theorem (D : List PubDoc) (rows : List TitleRow)
    (h : get_document_title_per_topic D = some rows) :
    List.Forall₂ (fun (d : PubDoc) (r : TitleRow) =>
      ∃ t p, d.topics = some t ∧ maxByVal t = some p ∧
        r = ⟨d.year, d.title, d.journal, p.1, p.2⟩ ∧ r.dominantTopicId ∈ t.map Prod.fst)
      D rows := by
  unfold get_document_title_per_topic at h
  refine (mapOpt_forall₂ _ h).imp (fun d r hdr => ?_)
  have hdr' : d.topics.bind (fun t =>
      (maxByVal t).map (fun p =>
        (⟨d.year, d.title, d.journal, p.1, p.2⟩ : TitleRow))) = some r := hdr
  cases ht : d.topics with
  | none => rw [ht] at hdr'; simp at hdr'
  | some t =>
      rw [ht] at hdr'
      have hdr2 : (maxByVal t).map (fun p =>
          (⟨d.year, d.title, d.journal, p.1, p.2⟩ : TitleRow)) = some r := by
        simpa using hdr'
      cases hp : maxByVal t with
      | none => rw [hp] at hdr2; simp at hdr2
      | some p =>
          rw [hp] at hdr2
          have hr : r = ⟨d.year, d.title, d.journal, p.1, p.2⟩ := by
            simpa using hdr2.symm
          refine ⟨t, p, rfl, hp, hr, ?_⟩
          rw [hr]
          exact List.mem_map_of_mem Prod.fst (maxByVal_mem_le hp).1

/-- C10 witness: the statement at a one-document list with tied string
keys "2" and "0", whose exported row carries the stored key "2". -/
theorem c10_witness :
    get_document_title_per_topic [⟨"J", 2000, "T", some [("2", (1 : ℚ)), ("0", 1)]⟩] =
      some [⟨2000, "T", "J", "2", 1⟩] ∧
    List.Forall₂ (fun (d : PubDoc) (r : TitleRow) =>
      ∃ t p, d.topics = some t ∧ maxByVal t = some p ∧
        r = ⟨d.year, d.title, d.journal, p.1, p.2⟩ ∧ r.dominantTopicId ∈ t.map Prod.fst)
      [⟨"J", 2000, "T", some [("2", (1 : ℚ)), ("0", 1)]⟩] [⟨2000, "T", "J", "2", 1⟩] :=
  ⟨by decide, c10_theorem _ _ (by decide)⟩

/-! ### Claim C8 -/

theorem getD_set_self (v : List ℚ) (k : Nat) (hk : k < v.length) :
    (v.set k 0).getD k 0 = 0 := by
  have h2 : (v.set k 0)[k]? = some 0 := List.getElem?_set_eq_of_lt 0 hk
  simp [List.getD, h2]

theorem getD_set_ne (v : List ℚ) (k i : Nat) (h : i ≠ k) :
    (v.set k 0).getD i 0 = v.getD i 0 := by
  have h2 : (v.set k 0)[i]? = v[i]? := List.getElem?_set_ne (fun hh => h hh.symm)
  simp [List.getD, h2]

/-- C8: the self-suppression transform zeroes exactly the diagonal entry
of each dominant-id-keyed vector (the position equal to the group key) and
leaves every other entry unchanged, while the per-year and per-journal
cumulative distributions are the plain bucket means with no suppression
applied to any entry. -/
theorem c8_theorem (m : List (Nat × List ℚ)) (k : Nat) (v : List ℚ)
    (h : lookupKey m k = some v)
    (g : List (Int × List (List ℚ))) (y : Int) (b : List (List ℚ))
    (hg : lookupKey g y = some b)
    (gj : List (String × List (List ℚ))) (j : String) (bj : List (List ℚ))
    (hj : lookupKey gj j = some bj) :
    (lookupKey (selfSuppress m) k = some (v.set k 0) ∧
      (∀ i, i < v.length → i = k → (v.set k 0).getD i 0 = 0) ∧
      (∀ i, i ≠ k → (v.set k 0).getD i 0 = v.getD i 0)) ∧
    lookupKey (get_year_to_cum_topics g) y = some (npMean b) ∧
    lookupKey (get_journal_to_cum_topics gj) j = some (npMean bj) := by
  refine ⟨⟨?_, ?_, ?_⟩, ?_, ?_⟩
  · have h1 := lookupKey_mapVal (fun k (v : List ℚ) => v.set k 0) m k
    rw [h] at h1
    exact h1
  · intro i hi hik
    rw [hik] at hi ⊢
    exact getD_set_self v k hi
  · intro i hik
    exact getD_set_ne v k i hik
  · have h1 := lookupKey_mapVal (fun _ (b : List (List ℚ)) => npMean b) g y
    rw [hg] at h1
    exact h1
  · have h1 := lookupKey_mapVal (fun _ (b : List (List ℚ)) => npMean b) gj j
    rw [hj] at h1
    exact h1

/-- C8 witness: the statement at concrete one-entry mappings — the
dominant-id map [(0, [1, 1])], whose diagonal entry is zeroed and whose
off-diagonal entry survives, and one-bucket year and journal groupings. -/
theorem c8_witness :
    lookupKey [((0 : Nat), [(1 : ℚ), 1])] 0 = some [(1 : ℚ), 1] ∧
    lookupKey [(((2000 : Int)), [[(1 : ℚ)]])] 2000 = some [[(1 : ℚ)]] ∧
    lookupKey [("J", [[(1 : ℚ)]])] "J" = some [[(1 : ℚ)]] ∧
    ((lookupKey (selfSuppress [((0 : Nat), [(1 : ℚ), 1])]) 0 =
        some ([(1 : ℚ), 1].set 0 0) ∧
      (∀ i, i < [(1 : ℚ), 1].length → i = 0 → ([(1 : ℚ), 1].set 0 0).getD i 0 = 0) ∧
      (∀ i, i ≠ 0 → ([(1 : ℚ), 1].set 0 0).getD i 0 = [(1 : ℚ), 1].getD i 0)) ∧
    lookupKey (get_year_to_cum_topics [(((2000 : Int)), [[(1 : ℚ)]])]) 2000 =
        some (npMean [[(1 : ℚ)]]) ∧
    lookupKey (get_journal_to_cum_topics [("J", [[(1 : ℚ)]])]) "J" =
        some (npMean [[(1 : ℚ)]])) :=
  ⟨by decide, by decide, by decide,
    c8_theorem [((0 : Nat), [(1 : ℚ), 1])] 0 [(1 : ℚ), 1] (by decide)
      [(((2000 : Int)), [[(1 : ℚ)]])] 2000 [[(1 : ℚ)]] (by decide)
      [("J", [[(1 : ℚ)]])] "J" [[(1 : ℚ)]] (by decide)⟩

/-! ### Claim C6 -/

theorem mem_bucket_from_pairs {κ : Type} [DecidableEq κ]
    {xs : List (κ × List ℚ)} {kb : κ × List (List ℚ)}
    (hkb : kb ∈ groupPairs xs) :
    kb.2 ≠ [] ∧ ∀ v ∈ kb.2, ∃ pair ∈ xs, pair.2 = v := by
  have hkb' : (kb.1, kb.2) ∈ groupPairs xs := by
    have : kb = (kb.1, kb.2) := rfl
    rw [← this]
    exact hkb
  obtain ⟨hb, hbne⟩ := mem_groupPairs hkb'
  refine ⟨hbne, ?_⟩
  intro v hv
  rw [hb] at hv
  obtain ⟨pair, hpair, hpv⟩ := List.mem_map.mp hv
  exact ⟨pair, List.mem_of_mem_filter hpair, hpv⟩

theorem doc_vec_bound {D : List PubDoc} {m : Nat}
    (hp : ∀ d ∈ D, ∀ p ∈ d.topics.getD [], 0 ≤ p.2 ∧ p.2 ≤ 1)
    (hl : ∀ d ∈ D, d.topics.isSome → (d.topics.getD []).length = m)
    {v : List ℚ} (hv : ∃ d ∈ D, ∃ t, d.topics = some t ∧ v = sortedTopicValues t) :
    v.length = m ∧ ∀ x ∈ v, 0 ≤ x ∧ x ≤ 1 := by
  obtain ⟨d, hd, t, ht, rfl⟩ := hv
  constructor
  · rw [sortedTopicValues_length]
    have hlen := hl d hd (by rw [ht]; rfl)
    rw [ht] at hlen
    simpa using hlen
  · intro x hx
    obtain ⟨p, hpt, rfl⟩ := mem_sortedTopicValues hx
    refine hp d hd p ?_
    rw [ht]
    simpa using hpt

/-- C6 counterexample: the per-dominant-topic path multiplies the bucket
mean by 100, so its CumulativeDistribution components leave [0,1] even
though every input probability is in [0,1]: one document with probability
1 on topic 0 yields component 100 for group key 0. -/
theorem c6_counterexample :
    get_dominant_id_to_topics [⟨"J", 2000, "T", some [("0", 1)]⟩] = some [(0, [[1]])] ∧
    get_dominant_id_to_cum_topics [(0, [[(1 : ℚ)]])] = [(0, [100])] ∧
    ¬ ((100 : ℚ) ≤ 1) := by
  refine ⟨by decide, ?_, by decide⟩
  norm_num [get_dominant_id_to_cum_topics, npMean, colSum, List.range_succ]

/-- C6 (amended): when all input probabilities lie in [0,1] and all stored
distributions have a common size, every component of the per-year and of
the per-journal cumulative distributions lies in [0,1]; the components of
the per-dominant-topic cumulative distribution lie in [0,100] instead,
because that path scales the bucket mean by 100. -/
theorem c6_theorem (D : List PubDoc) (m : Nat)
    (hp : ∀ d ∈ D, ∀ p ∈ d.topics.getD [], 0 ≤ p.2 ∧ p.2 ≤ 1)
    (hl : ∀ d ∈ D, d.topics.isSome → (d.topics.getD []).length = m) :
    (∀ g, get_year_to_topics D = some g →
      ∀ kb ∈ get_year_to_cum_topics g, ∀ x ∈ kb.2, 0 ≤ x ∧ x ≤ 1) ∧
    (∀ kb ∈ get_journal_to_cum_topics (get_journal_to_topics D),
      ∀ x ∈ kb.2, 0 ≤ x ∧ x ≤ 1) ∧
    (∀ g, get_dominant_id_to_topics D = some g →
      ∀ kb ∈ get_dominant_id_to_cum_topics g, ∀ x ∈ kb.2, 0 ≤ x ∧ x ≤ 100) := by
  have hyear : ∀ g, get_year_to_topics D = some g →
      ∀ kv ∈ g, kv.2 ≠ [] ∧
        ∀ v ∈ kv.2, ∃ d ∈ D, ∃ t, d.topics = some t ∧ v = sortedTopicValues t := by
    intro g hg kv hkv
    have hxs : ∃ xs, mapOpt
        (fun d => d.topics.map (fun t => ((d.year : Int), sortedTopicValues t))) D =
          some xs ∧ g = groupPairs xs := by
      unfold get_year_to_topics at hg
      cases hed : mapOpt
          (fun d => d.topics.map (fun t => ((d.year : Int), sortedTopicValues t))) D with
      | none => rw [hed] at hg; simp at hg
      | some xs =>
          rw [hed] at hg
          exact ⟨xs, rfl, by simpa using hg.symm⟩
    obtain ⟨xs, hxs, rfl⟩ := hxs
    obtain ⟨hne, hmem⟩ := mem_bucket_from_pairs hkv
    refine ⟨hne, ?_⟩
    intro v hv
    obtain ⟨pair, hpair, hpv⟩ := hmem v hv
    obtain ⟨d, hd, hfd⟩ := forall₂_mem_right (mapOpt_forall₂ _ hxs) pair hpair
    have hfd' : d.topics.map (fun t => ((d.year : Int), sortedTopicValues t)) =
        some pair := hfd
    cases ht : d.topics with
    | none => rw [ht] at hfd'; simp at hfd'
    | some t =>
        rw [ht] at hfd'
        refine ⟨d, hd, t, ht, ?_⟩
        have hpt : pair = ((d.year : Int), sortedTopicValues t) := by
          simpa using hfd'.symm
        rw [← hpv, hpt]
  have hdom : ∀ g, get_dominant_id_to_topics D = some g →
      ∀ kv ∈ g, kv.2 ≠ [] ∧
        ∀ v ∈ kv.2, ∃ d ∈ D, ∃ t, d.topics = some t ∧ v = sortedTopicValues t := by
    intro g hg kv hkv
    have hxs : ∃ xs, mapOpt docDominantEntry D = some xs ∧ g = groupPairs xs := by
      unfold get_dominant_id_to_topics at hg
      cases hed : mapOpt docDominantEntry D with
      | none => rw [hed] at hg; simp at hg
      | some xs =>
          rw [hed] at hg
          exact ⟨xs, rfl, by simpa using hg.symm⟩
    obtain ⟨xs, hxs, rfl⟩ := hxs
    obtain ⟨hne, hmem⟩ := mem_bucket_from_pairs hkv
    refine ⟨hne, ?_⟩
    intro v hv
    obtain ⟨pair, hpair, hpv⟩ := hmem v hv
    obtain ⟨d, hd, hfd⟩ := forall₂_mem_right (mapOpt_forall₂ _ hxs) pair hpair
    unfold docDominantEntry at hfd
    cases ht : d.topics with
    | none => rw [ht] at hfd; simp at hfd
    | some t =>
        rw [ht] at hfd
        have hfd2 : (idxOfMax (sortedTopicValues t)).map
            (fun i => (i, sortedTopicValues t)) = some pair := by
          simpa using hfd
        cases hix : idxOfMax (sortedTopicValues t) with
        | none => rw [hix] at hfd2; simp at hfd2
        | some i =>
            rw [hix] at hfd2
            refine ⟨d, hd, t, ht, ?_⟩
            have hpt : pair = (i, sortedTopicValues t) := by simpa using hfd2.symm
            rw [← hpv, hpt]
  refine ⟨?_, ?_, ?_⟩
  · intro g hg kb hkb
    obtain ⟨kv, hkv, rfl⟩ := List.mem_map.mp hkb
    obtain ⟨hne, hmem⟩ := hyear g hg kv hkv
    intro x hx
    refine @npMean_bound kv.2 m hne ?_ ?_ x hx
    · intro v hv
      exact (doc_vec_bound hp hl (hmem v hv)).1
    · intro v hv
      exact (doc_vec_bound hp hl (hmem v hv)).2
  · intro kb hkb
    obtain ⟨kv, hkv, rfl⟩ := List.mem_map.mp hkb
    have hmem : kv.2 ≠ [] ∧
        ∀ v ∈ kv.2, ∃ d ∈ D, ∃ t, d.topics = some t ∧ v = sortedTopicValues t := by
      unfold get_journal_to_topics at hkv
      obtain ⟨hne, hmem⟩ := mem_bucket_from_pairs hkv
      refine ⟨hne, ?_⟩
      intro v hv
      obtain ⟨pair, hpair, hpv⟩ := hmem v hv
      obtain ⟨d, hd, hfd⟩ := List.mem_filterMap.mp hpair
      cases ht : d.topics with
      | none => rw [ht] at hfd; simp at hfd
      | some t =>
          rw [ht] at hfd
          refine ⟨d, hd, t, ht, ?_⟩
          have hpt : pair = (d.journal, sortedTopicValues t) := by simpa using hfd.symm
          rw [← hpv, hpt]
    obtain ⟨hne, hmem⟩ := hmem
    intro x hx
    refine @npMean_bound kv.2 m hne ?_ ?_ x hx
    · intro v hv
      exact (doc_vec_bound hp hl (hmem v hv)).1
    · intro v hv
      exact (doc_vec_bound hp hl (hmem v hv)).2
  · intro g hg kb hkb
    obtain ⟨kv, hkv, rfl⟩ := List.mem_map.mp hkb
    obtain ⟨hne, hmem⟩ := hdom g hg kv hkv
    intro x hx
    obtain ⟨y, hy, rfl⟩ := List.mem_map.mp hx
    have hb := @npMean_bound kv.2 m hne
      (fun v hv => (doc_vec_bound hp hl (hmem v hv)).1)
      (fun v hv => (doc_vec_bound hp hl (hmem v hv)).2) y hy
    constructor
    · nlinarith [hb.1]
    · nlinarith [hb.2]

/-- C6 witness: the amended statement at a one-document list with the
distribution {0: 1.0, 1: 0.0} (probabilities in [0,1], common size 2). -/
theorem c6_witness :
    (∀ d ∈ [(⟨"J", 2000, "T", some [("0", (1 : ℚ)), ("1", 0)]⟩ : PubDoc)],
      ∀ p ∈ d.topics.getD [], 0 ≤ p.2 ∧ p.2 ≤ 1) ∧
    (∀ d ∈ [(⟨"J", 2000, "T", some [("0", (1 : ℚ)), ("1", 0)]⟩ : PubDoc)],
      d.topics.isSome → (d.topics.getD []).length = 2) ∧
    ((∀ g, get_year_to_topics
        [(⟨"J", 2000, "T", some [("0", (1 : ℚ)), ("1", 0)]⟩ : PubDoc)] = some g →
      ∀ kb ∈ get_year_to_cum_topics g, ∀ x ∈ kb.2, 0 ≤ x ∧ x ≤ 1) ∧
    (∀ kb ∈ get_journal_to_cum_topics (get_journal_to_topics
        [(⟨"J", 2000, "T", some [("0", (1 : ℚ)), ("1", 0)]⟩ : PubDoc)]),
      ∀ x ∈ kb.2, 0 ≤ x ∧ x ≤ 1) ∧
    (∀ g, get_dominant_id_to_topics
        [(⟨"J", 2000, "T", some [("0", (1 : ℚ)), ("1", 0)]⟩ : PubDoc)] = some g →
      ∀ kb ∈ get_dominant_id_to_cum_topics g, ∀ x ∈ kb.2, 0 ≤ x ∧ x ≤ 100)) :=
  ⟨by decide, by decide,
    c6_theorem [⟨"J", 2000, "T", some [("0", (1 : ℚ)), ("1", 0)]⟩] 2
      (by decide) (by decide)⟩

/-! ### Claim C9 -/

/-- C9: over exact rational arithmetic, permuting the document list before
the per-year grouping and mean reduction leaves the cumulative
distribution of every group key unchanged (stated for documents that all
carry a distribution of a common size, the rectangular case `np.mean`
operates on). -/
theorem c9_theorem (D₁ D₂ : List PubDoc) (m : Nat) (hperm : D₁.Perm D₂)
    (hs : ∀ d ∈ D₁, d.topics.isSome)
    (hl : ∀ d ∈ D₁, (d.topics.getD []).length = m) :
    ∃ g₁ g₂, get_year_to_topics D₁ = some g₁ ∧ get_year_to_topics D₂ = some g₂ ∧
      ∀ y : Int, lookupKey (get_year_to_cum_topics g₁) y =
        lookupKey (get_year_to_cum_topics g₂) y := by
  have hs₂ : ∀ d ∈ D₂, d.topics.isSome := fun d hd => hs d (hperm.mem_iff.mpr hd)
  have hl₂ : ∀ d ∈ D₂, (d.topics.getD []).length = m :=
    fun d hd => hl d (hperm.mem_iff.mpr hd)
  have hfg : ∀ (D : List PubDoc), (∀ d ∈ D, d.topics.isSome) →
      mapOpt (fun d => d.topics.map (fun t => ((d.year : Int), sortedTopicValues t))) D =
        some (D.map (fun d => ((d.year : Int), sortedTopicValues (d.topics.getD [])))) := by
    intro D hD
    refine mapOpt_eq_map _ _ (fun d hd => ?_)
    have hsd := hD d hd
    cases ht : d.topics with
    | none => rw [ht] at hsd; simp at hsd
    | some t => simp [ht]
  have h1 := hfg D₁ hs
  have h2 := hfg D₂ hs₂
  refine ⟨_, _, by unfold get_year_to_topics; rw [h1]; rfl,
    by unfold get_year_to_topics; rw [h2]; rfl, ?_⟩
  intro y
  have hxs : (D₁.map (fun d => ((d.year : Int), sortedTopicValues (d.topics.getD [])))).Perm
      (D₂.map (fun d => ((d.year : Int), sortedTopicValues (d.topics.getD [])))) :=
    hperm.map _
  have hbp : (bucketOf
      (D₁.map (fun d => ((d.year : Int), sortedTopicValues (d.topics.getD [])))) y).Perm
      (bucketOf
        (D₂.map (fun d => ((d.year : Int), sortedTopicValues (d.topics.getD [])))) y) :=
    (hxs.filter _).map Prod.snd
  have hblen : ∀ v ∈ bucketOf
      (D₁.map (fun d => ((d.year : Int), sortedTopicValues (d.topics.getD [])))) y,
      v.length = m := by
    intro v hv
    obtain ⟨pair, hpair, hpv⟩ := List.mem_map.mp hv
    have hpx := List.mem_of_mem_filter hpair
    obtain ⟨d, hd, hgd⟩ := List.mem_map.mp hpx
    rw [← hpv, ← hgd]
    rw [sortedTopicValues_length]
    exact hl d hd
  have hmean := npMean_perm hbp m hblen
  have hy₁ := lookupKey_mapVal (fun _ (b : List (List ℚ)) => npMean b)
    (groupPairs (D₁.map (fun d => ((d.year : Int), sortedTopicValues (d.topics.getD []))))) y
  have hy₂ := lookupKey_mapVal (fun _ (b : List (List ℚ)) => npMean b)
    (groupPairs (D₂.map (fun d => ((d.year : Int), sortedTopicValues (d.topics.getD []))))) y
  refine hy₁.trans (hy₂.symm ▸ ?_)
  rw [lookupKey_groupPairs, lookupKey_groupPairs]
  by_cases he : bucketOf
      (D₁.map (fun d => ((d.year : Int), sortedTopicValues (d.topics.getD [])))) y = []
  · have he₂ : bucketOf
        (D₂.map (fun d => ((d.year : Int), sortedTopicValues (d.topics.getD [])))) y = [] :=
      ((he ▸ hbp).symm).eq_nil
    rw [he, he₂]
  · have he₂ : bucketOf
        (D₂.map (fun d => ((d.year : Int), sortedTopicValues (d.topics.getD [])))) y ≠ [] := by
      intro hh
      exact he ((hh ▸ hbp).eq_nil)
    rw [if_neg he, if_neg he₂]
    simp [hmean]

/-- C9 witness: the statement at a concrete two-document list and its
reversal (both documents with distributions of size 2). -/
theorem c9_witness :
    ([(⟨"J", 2000, "T1", some [("0", (1 : ℚ)), ("1", 0)]⟩ : PubDoc),
        ⟨"K", 2000, "T2", some [("0", (0 : ℚ)), ("1", 1)]⟩].Perm
      [(⟨"K", 2000, "T2", some [("0", (0 : ℚ)), ("1", 1)]⟩ : PubDoc),
        ⟨"J", 2000, "T1", some [("0", (1 : ℚ)), ("1", 0)]⟩]) ∧
    (∃ g₁ g₂,
      get_year_to_topics
          [(⟨"J", 2000, "T1", some [("0", (1 : ℚ)), ("1", 0)]⟩ : PubDoc),
            ⟨"K", 2000, "T2", some [("0", (0 : ℚ)), ("1", 1)]⟩] = some g₁ ∧
      get_year_to_topics
          [(⟨"K", 2000, "T2", some [("0", (0 : ℚ)), ("1", 1)]⟩ : PubDoc),
            ⟨"J", 2000, "T1", some [("0", (1 : ℚ)), ("1", 0)]⟩] = some g₂ ∧
      ∀ y : Int, lookupKey (get_year_to_cum_topics g₁) y =
        lookupKey (get_year_to_cum_topics g₂) y) :=
  ⟨by decide,
    c9_theorem
      [⟨"J", 2000, "T1", some [("0", (1 : ℚ)), ("1", 0)]⟩,
        ⟨"K", 2000, "T2", some [("0", (0 : ℚ)), ("1", 1)]⟩]
      [⟨"K", 2000, "T2", some [("0", (0 : ℚ)), ("1", 1)]⟩,
        ⟨"J", 2000, "T1", some [("0", (1 : ℚ)), ("1", 0)]⟩]
      2 (by decide) (by decide) (by decide)⟩

end LDA
